import Mathlib

/-!
Verification of the azure-cli feedback module (`custom.py`) and the
autogenerated `RepositoryUpsertRequestProperties` model, as a shallow
embedding in Lean.  Python strings are modelled as Lean `String`
(operated on through their `List Char` data), Python integers as `Int`,
and code that can raise an exception returns `Except String α` where the
error value names the Python exception.
-/

namespace AzFeedback

/-- Characters treated as whitespace by Python `str.strip`. -/
def isSpaceC (c : Char) : Bool :=
  c = ' ' || c = '\t' || c = '\n' || c = '\r' || c = '\x0b' || c = '\x0c'

/-- Python `s.strip()` on a character list: remove leading and trailing whitespace. -/
def stripL (s : List Char) : List Char :=
  ((s.dropWhile isSpaceC).reverse.dropWhile isSpaceC).reverse

/-- Python `s.lower()` (ASCII case fold, which is all the sources need). -/
def lowerL (s : List Char) : List Char :=
  s.map Char.toLower

/-- Python `s.split(sep)` for a one-character separator `c`.
Always returns a non-empty list; the empty string yields `[[]]`. -/
def splitChar (c : Char) : List Char → List (List Char)
  | [] => [[]]
  | x :: xs =>
    let r := splitChar c xs
    if x = c then [] :: r
    else
      match r with
      | h :: t => (x :: h) :: t
      | [] => [[x]]

/-- Python `sep.join(parts)` for a one-character separator. -/
def joinChar (c : Char) (parts : List (List Char)) : List Char :=
  List.intercalate [c] parts

/-- Whether `pat` occurs as a contiguous substring (Python `pat in s`). -/
def containsSub (pat : List Char) : List Char → Bool
  | [] => pat.isPrefixOf ([] : List Char)
  | x :: xs => pat.isPrefixOf (x :: xs) || containsSub pat xs

/-- Worker for `replaceSub`; the fuel is an upper bound on the number of
scanning steps, each of which consumes at least one character. -/
def replaceGo (pat repl : List Char) : Nat → List Char → List Char
  | 0, s => s
  | _ + 1, [] => []
  | n + 1, x :: xs =>
    if pat.isPrefixOf (x :: xs) then
      repl ++ replaceGo pat repl n (List.drop pat.length (x :: xs))
    else
      x :: replaceGo pat repl n xs

/-- Python `s.replace(pat, repl)` for a non-empty pattern: replace all
occurrences, scanning left to right. -/
def replaceSub (pat repl s : List Char) : List Char :=
  replaceGo pat repl s.length s

/-- Python `s.splitlines()` restricted to the newline terminator, which is
the only terminator occurring in the sources: split on every newline and
drop the trailing empty piece produced by a final newline. -/
def splitlinesL (s : List Char) : List (List Char) :=
  if s = [] then []
  else if s.getLast? = some '\n' then (splitChar '\n' s).dropLast
  else splitChar '\n' s

/-- Python `s.startswith(t)`. -/
def strStartsWith (s t : String) : Bool :=
  t.data.isPrefixOf s.data

/-- Python `s.endswith(t)`. -/
def strEndsWith (s t : String) : Bool :=
  decide (t.data.length ≤ s.data.length ∧
    List.drop (s.data.length - t.data.length) s.data = t.data)

/-- Python `s[n:]` (drop the first `n` characters). -/
def strDrop (s : String) (n : Nat) : String :=
  String.mk (s.data.drop n)

/-- Python string concatenation on the underlying character lists. -/
def strConcat (s t : String) : String :=
  String.mk (s.data ++ t.data)

/-- Grammar of the digit part accepted by Python `int`, once at least one
digit has been read: further digits, with single underscores allowed
between digits. -/
def intDigitsTail : List Char → Bool
  | [] => true
  | ['_'] => false
  | '_' :: c :: rest => c.isDigit && intDigitsTail rest
  | c :: rest => c.isDigit && intDigitsTail rest

/-- A non-empty run of ASCII digits with single underscores between digits. -/
def intDigitsOk : List Char → Bool
  | [] => false
  | c :: rest => c.isDigit && intDigitsTail rest

/-- Numeric value of a digit run, skipping underscores. -/
def digitsVal (ds : List Char) : Nat :=
  ds.foldl (fun a c => if c = '_' then a else a * 10 + (c.toNat - '0'.toNat)) 0

/-- Python `int(s)` on a string: strip whitespace, optional sign, then a
run of decimal digits (underscores permitted between digits).  Returns
`none` where Python raises `ValueError`. -/
def pyInt (s : String) : Option Int :=
  match stripL s.data with
  | [] => none
  | c :: rest =>
    if c = '-' then
      if intDigitsOk rest then some (-(digitsVal rest : Int)) else none
    else if c = '+' then
      if intDigitsOk rest then some ((digitsVal rest : Int)) else none
    else if intDigitsOk (c :: rest) then some ((digitsVal (c :: rest) : Int))
    else none

/-- Python `s.split(sep, maxSplit)` for a one-character separator: at most
`maxSplit` splits, the remainder is kept joined. -/
def splitCharMax (c : Char) (maxSplit : Nat) (s : List Char) : List (List Char) :=
  let ps := splitChar c s
  if ps.length ≤ maxSplit + 1 then ps
  else ps.take maxSplit ++ [joinChar c (ps.drop maxSplit)]

/-! ## Model of the `os.path` (posixpath) helpers used by `ErrorMinifier._shorten_file_name` -/

/-- Python `posixpath.split(p)`: split at the final slash; the head keeps
its trailing slashes only when it consists of slashes alone.  Returns
`(head, tail)`, that is `(dirname, basename)`. -/
def pathSplit (p : List Char) : List Char × List Char :=
  let tail := (p.reverse.takeWhile (fun c => c ≠ '/')).reverse
  let head := p.take (p.length - tail.length)
  if head = [] ∨ head.all (fun c => c = '/') then (head, tail)
  else ((head.reverse.dropWhile (fun c => c = '/')).reverse, tail)

/-- Python `posixpath.basename(p)`. -/
def pathBase (p : List Char) : List Char := (pathSplit p).2

/-- Python `posixpath.dirname(p)`. -/
def pathDir (p : List Char) : List Char := (pathSplit p).1

/-- Python `posixpath.join(a, b)` for two components. -/
def pathJoin (a b : List Char) : List Char :=
  if b.head? = some '/' then b
  else if a = [] ∨ a.getLast? = some '/' then a ++ b
  else a ++ '/' :: b

/-! ## Log line parsing (`CommandLogFile._get_info_from_log_line`) -/

/-- Modelled from the spec: the known command-log line marker
(`_CMD_LOG_LINE_PREFIX`, imported from `azure.cli.core.azlogging`, whose
source is not part of this repository fragment).  The spec only says the
format is pipe-delimited with a known prefix, and none of the claims
depend on the exact marker text. -/
def cmdLogLineBegin : String := "CMD-LOG-LINE-BEGIN"

/-- One parsed command-log record: process id, timestamp, level, logger
name and message (the namedtuple `CommandLogFile._LogRecordType`). -/
structure LogRecord where
  pId : Int
  dateTime : String
  level : String
  loggerName : String
  logMsg : String
deriving DecidableEq

/-- Python `part.strip()` lifted to `String`. -/
def pyStrip (s : String) : String := String.mk (stripL s.data)

/-- The final fix-up of `_get_info_from_log_line`: append a newline to
the message when it does not already end with one. -/
def withNewline (s : String) : String :=
  if strEndsWith s "\n" = true then s else strConcat s "\n"

/-- `CommandLogFile._get_info_from_log_line(line, p_id)`.  The line must
start with the command-log marker; the remainder is split on pipes with
`maxsplit=4` and must give exactly five fields; each field is stripped;
the leading field is parsed with `int` — where Python would raise
`ValueError` the result is `.error "ValueError"` — and must equal `p_id`;
a newline is appended to the message field when missing. -/
def getInfoFromLogLine (line : String) (pId : Int) : Except String (Option LogRecord) :=
  if strStartsWith line cmdLogLineBegin then
    let parts := splitCharMax '|' 4 (strDrop line cmdLogLineBegin.length).data
    if parts.length = 5 then
      match pyInt (String.mk (stripL (parts.getD 0 []))) with
      | none => .error "ValueError"
      | some n =>
        if n = pId then
          .ok (some
            { pId := n
              dateTime := String.mk (stripL (parts.getD 1 []))
              level := String.mk (stripL (parts.getD 2 []))
              loggerName := String.mk (stripL (parts.getD 3 []))
              logMsg := withNewline (String.mk (stripL (parts.getD 4 []))) })
        else .ok none
    else .ok none
  else .ok none

/-- The recognition condition stated by the claim: the line starts with
the known marker, the remainder splits into exactly five pipe-delimited
fields, and the leading field parsed as an integer equals the expected
process id. -/
def recognizesNewRecord (line : String) (pId : Int) : Prop :=
  strStartsWith line cmdLogLineBegin = true ∧
  (splitCharMax '|' 4 (strDrop line cmdLogLineBegin.length).data).length = 5 ∧
  pyInt (String.mk (stripL ((splitCharMax '|' 4 (strDrop line cmdLogLineBegin.length).data).getD 0 []))) = some pId

instance (line : String) (pId : Int) : Decidable (recognizesNewRecord line pId) := by
  unfold recognizesNewRecord; infer_instance

/-- Whether `_get_info_from_log_line` yields a new record for this line. -/
def isNewRecordLine (line : String) (pId : Int) : Bool :=
  match getInfoFromLogLine line pId with
  | .ok (some _) => true
  | _ => false

/-! ## Record grouping (`_get_log_record_list` inside `_get_command_data_from_metadata`) -/

/-- Append a continuation line verbatim to the message of a record,
leaving every other field unchanged. -/
def appendToMsg (r : LogRecord) (line : String) : LogRecord :=
  { r with logMsg := strConcat r.logMsg line }

/-- Loop of `_get_log_record_list`: `prev` is the record currently being
assembled and `acc` the list of finished records; a newly recognized
record pushes `prev` onto `acc`, an unrecognized line is appended to
`prev` when one exists and dropped otherwise; at the end `prev` is
appended to the list. -/
def getLogRecordListAux (pId : Int) : List String → Option LogRecord → List LogRecord →
    Except String (List LogRecord)
  | [], prev, acc => .ok (acc ++ prev.toList)
  | line :: rest, prev, acc =>
    match getInfoFromLogLine line pId with
    | .error e => .error e
    | .ok (some r) => getLogRecordListAux pId rest (some r) (acc ++ prev.toList)
    | .ok none =>
      match prev with
      | some p => getLogRecordListAux pId rest (some (appendToMsg p line)) acc
      | none => getLogRecordListAux pId rest none acc

/-- `_get_log_record_list(log_fp, p_id)` over the lines of the file. -/
def getLogRecordList (lines : List String) (pId : Int) : Except String (List LogRecord) :=
  getLogRecordListAux pId lines none []

/-- Restated from the claim wording: scan the lines in file order; a
recognized line opens a record, each following unrecognized line is
appended verbatim to the message of the immediately preceding record,
and the finished records are returned one per recognized line, in file
order.  `cur` is the record the most recent recognized line opened. -/
def recordsOfLinesAux (pId : Int) : List String → Option LogRecord →
    Except String (List LogRecord)
  | [], none => .ok []
  | [], some p => .ok [p]
  | line :: rest, cur =>
    match getInfoFromLogLine line pId with
    | .error e => .error e
    | .ok (some r) =>
      match cur with
      | none => recordsOfLinesAux pId rest (some r)
      | some p => (recordsOfLinesAux pId rest (some r)).map (p :: ·)
    | .ok none =>
      match cur with
      | some p => recordsOfLinesAux pId rest (some (appendToMsg p line))
      | none => recordsOfLinesAux pId rest none

/-- Entry point of the claim-side regrouping. -/
def recordsOfLines (lines : List String) (pId : Int) : Except String (List LogRecord) :=
  recordsOfLinesAux pId lines none

/-! ## Log file name metadata (`CommandLogFile._get_command_metadata_from_file`) -/

/-- Modelled from the spec: the sentinel command name `_UNKNOWN_COMMAND`
imported from `azure.cli.core.azlogging`, whose source is not part of
this repository fragment.  The claims do not depend on its exact text. -/
def unknownCommand : String := "unknown_command"

/-- The cached `CommandLogFile.UNKNOWN_CMD` constant. -/
def unknownCmd : String := "Unknown"

/-- A parsed timestamp, as produced by
`datetime.strptime(..., "%Y-%m-%d-%H-%M-%S")`. -/
structure PyDateTime where
  year : Nat
  month : Nat
  day : Nat
  hour : Nat
  minute : Nat
  second : Nat
deriving DecidableEq

/-- Gregorian leap year rule used by `datetime`. -/
def isLeapYear (y : Nat) : Bool :=
  (y % 4 = 0 && y % 100 ≠ 0) || y % 400 = 0

/-- Days in a month, as validated by the `datetime` constructor. -/
def daysInMonth (y m : Nat) : Nat :=
  if m = 2 then (if isLeapYear y then 29 else 28)
  else if m = 4 ∨ m = 6 ∨ m = 9 ∨ m = 11 then 30
  else 31

/-- A run of ASCII digits of length between 1 and `maxLen`. -/
def digitsRun (maxLen : Nat) (s : List Char) : Bool :=
  s.length ≥ 1 && s.length ≤ maxLen && s.all Char.isDigit

/-- `datetime.strptime(s, "%Y-%m-%d-%H-%M-%S")`: six dash-separated
numeric fields — a four-digit year and one-or-two-digit month, day,
hour, minute and second — validated against the calendar; `none` where
Python raises `ValueError`. -/
def strptimeYmdHMS (s : String) : Option PyDateTime :=
  match splitChar '-' s.data with
  | [py, pm, pd, ph, pmi, ps] =>
    if digitsRun 4 py && py.length = 4 && digitsRun 2 pm && digitsRun 2 pd &&
        digitsRun 2 ph && digitsRun 2 pmi && digitsRun 2 ps then
      let y := digitsVal py
      let m := digitsVal pm
      let d := digitsVal pd
      let hh := digitsVal ph
      let mi := digitsVal pmi
      let ss := digitsVal ps
      if 1 ≤ y ∧ 1 ≤ m ∧ m ≤ 12 ∧ 1 ≤ d ∧ d ≤ daysInMonth y m ∧
          hh ≤ 23 ∧ mi ≤ 59 ∧ ss ≤ 59 then
        some ⟨y, m, d, hh, mi, ss⟩
      else none
    else none
  | _ => none

/-- Metadata extracted from a command log file name (the namedtuple
`_LogMetadataType`).  The `seconds_ago` field of the source is the
difference between the current time and `dateTime`; the parsed timestamp
is stored instead because the subtraction from the ambient clock is not
observable by any claim. -/
structure LogMetadata where
  cmd : String
  dateTime : PyDateTime
  filePath : String
  pId : Int
deriving DecidableEq

/-- `CommandLogFile._get_command_metadata_from_file` applied to a file
name (the `os.path.split` of the full path is performed by the caller in
this model).  The name is split on dots and must give exactly five
fields; date and time are parsed with `strptime`; both failures are
caught and give `none` with a debug note.  The process-id field is then
parsed with `int` in the `return` statement, which sits OUTSIDE the
`try`/`except` of the source, so its `ValueError` escapes as
`.error "ValueError"`. -/
def getCommandMetadataFromFile (fileName : String) : Except String (Option LogMetadata) :=
  match splitChar '.' fileName.data with
  | [possDate, possTime, possCommand, possPid, _ext] =>
    match strptimeYmdHMS (String.mk (possDate ++ '-' :: possTime)) with
    | none => .ok none
    | some dt =>
      let command :=
        if String.mk possCommand ≠ unknownCommand then
          strConcat "az " (String.mk (replaceSub "_".data " ".data possCommand))
        else unknownCmd
      match pyInt (String.mk possPid) with
      | some n => .ok (some ⟨command, dt, fileName, n⟩)
      | none => .error "ValueError"
  | _ => .ok none

/-- Code-point comparison of strings, Python `<=` on `str`. -/
def lexLe : List Char → List Char → Bool
  | [], _ => true
  | _ :: _, [] => false
  | x :: xs, y :: ys =>
    if x.toNat < y.toNat then true
    else if y.toNat < x.toNat then false
    else lexLe xs ys

/-- Insert into a sorted list, keeping equal elements in order. -/
def insertSorted (x : String) : List String → List String
  | [] => [x]
  | y :: ys => if lexLe x.data y.data then x :: y :: ys else y :: insertSorted x ys

/-- Python `sorted` on file names. -/
def sortStrings : List String → List String
  | [] => []
  | x :: xs => insertSorted x (sortStrings xs)

/-- The `for file_name in files` loop of `_get_command_log_files`: build
the metadata for each file, skipping the files whose metadata is `None`
and propagating an uncaught `ValueError`. -/
def collectLogFiles : List String → Except String (List (String × LogMetadata))
  | [] => .ok []
  | f :: rest =>
    match getCommandMetadataFromFile f with
    | .error e => .error e
    | .ok none => collectLogFiles rest
    | .ok (some m) => (collectLogFiles rest).map ((f, m) :: ·)

/-- `_get_command_log_files(cli_ctx)` applied to the directory listing:
keep the `.log` files, sort them, and build a `CommandLogFile` for each;
files whose metadata parse gives `None` are skipped with a debug note,
while an escaping exception from the metadata parse aborts everything
(the joining of the directory path, an external `os` concern, is
omitted). -/
def getCommandLogFiles (fileNames : List String) : Except String (List (String × LogMetadata)) :=
  collectLogFiles (sortStrings (fileNames.filter (fun f => strEndsWith f ".log")))

/-! ## `ErrorMinifier` -/

/-- First-occurrence search for `pat`, returning the remainder after it. -/
def afterFirst (pat : List Char) : List Char → Option (List Char)
  | [] => if pat.isPrefixOf ([] : List Char) then some [] else none
  | x :: xs =>
    if pat.isPrefixOf (x :: xs) then some (List.drop pat.length (x :: xs))
    else afterFirst pat xs

/-- Characters strictly before the last double quote, when one exists. -/
def beforeLastQuote (s : List Char) : Option (List Char) :=
  match s.reverse.dropWhile (fun c => c ≠ '"') with
  | [] => none
  | _ :: t => some t.reverse

/-- Group 1 of `ErrorMinifier._FILE_RE.search`, the regex `File "(.*)"`:
the text between the first occurrence of the opening `File "` and the
last double quote after it (the greedy `.*` backtracks to the final
quote, and a later occurrence of the pattern would itself supply such a
quote, so searching from the first occurrence is exhaustive). -/
def fileRegexGroup (s : List Char) : Option (List Char) :=
  (afterFirst "File \"".data s).bind beforeLastQuote

/-- The `for _ in range(levels - 1)` loop of
`ErrorMinifier._shorten_file_name`: prepend one more path component per
step. -/
def shortenGo : Nat → List Char → List Char → List Char
  | 0, _, acc => acc
  | k + 1, fn, acc => shortenGo k (pathDir fn) (pathJoin (pathBase fn) acc)

/-- `ErrorMinifier._shorten_file_name(file_name, levels)`: keep the last
`levels` path components, rebuilt with `os.path` basename, dirname and
join. -/
def shortenFileName (fileName : List Char) (levels : Nat) : List Char :=
  if levels > 0 then shortenGo (levels - 1) (pathDir fileName) (pathBase fileName)
  else fileName

/-- Transformation `_minify_by_shortening_file_names` applies to one
line; `none` means the line is removed. -/
def minifyLine (levels : Nat) (line : List Char) : Option (List Char) :=
  if "File".data.isPrefixOf (stripL line) && containsSub ", line".data line then
    some (match splitChar ',' line with
      | p0 :: p1 :: rest =>
        match fileRegexGroup p0 with
        | some g =>
          joinChar ',' (shortenFileName g levels :: replaceSub "line".data "ln".data p1 :: rest)
        | none => joinChar ',' (p0 :: p1 :: rest)
      | ps => joinChar ',' ps)
  else if containsSub ".py".data line && containsSub ", ln".data line then
    some (match splitChar ',' line with
      | p0 :: rest => joinChar ',' (shortenFileName p0 levels :: rest)
      | [] => line)
  else if containsSub "here is the traceback".data (lowerL line) then none
  else some line

/-- `ErrorMinifier._minify_by_shortening_file_names(error_string, levels)`. -/
def minifyByShorteningFileNames (errorString : String) (levels : Nat) : String :=
  String.mk (joinChar '\n' ((splitlinesL errorString.data).filterMap (minifyLine levels)))

/-- `ErrorMinifier._minify_by_removing_nested_exceptions(error_string)`:
if a line containing the nested-exception marker occurs before the last
line, everything from it on is collapsed to the continuation marker plus
the last three lines. -/
def minifyByRemovingNestedExceptions (errorString : String) : String :=
  let lines := splitlinesL errorString.data
  match lines.findIdx? (fun l => containsSub "During handling of the above exception".data l) with
  | none => errorString
  | some i =>
    if i + 1 = lines.length then errorString
    else String.mk (joinChar '\n'
      (lines.take i ++ "...\n".data :: lines.drop (lines.length - 3)))

/-- Rebuild step of `_minify_by_removing_lines`: the continuation marker
is inserted at position `mid` and the four lines starting there are
dropped. -/
def removeMidLines (mid : Nat) : Nat → List (List Char) → List (List Char)
  | _, [] => []
  | i, l :: ls =>
    (if i = mid then ["...".data] else []) ++
      (if mid ≤ i ∧ i < mid + 4 then [] else [l]) ++
      removeMidLines mid (i + 1) ls

/-- `ErrorMinifier._minify_by_removing_lines(error_string)`: previous
continuation markers are erased, and the middle line index
`len(lines) // 2 + 1` is probed, which raises `IndexError` whenever the
string has fewer than three lines. -/
def minifyByRemovingLines (errorString : String) : Except String String :=
  let s := replaceSub "...\n".data [] errorString.data
  let lines := splitlinesL s
  let mid0 := lines.length / 2 + 1
  if h : mid0 < lines.length then
    let probe := lines.get ⟨mid0, h⟩
    let mid :=
      if containsSub ".py".data probe && containsSub ", ln".data probe then mid0
      else mid0 - 1
    .ok (String.mk (joinChar '\n' (removeMidLines mid 0 lines)))
  else .error "IndexError"

/-- Python `"\n".join(errors_list)` on the error list. -/
def joinErrors (l : List String) : String :=
  String.mk (joinChar '\n' (l.map String.data))

/-- Stage 2 of `_get_minified_errors`: every element shortened to 5 path
segments (the in-place `errors_list[i] = ...` loop with `levels=5`). -/
def shorten5List (l : List String) : List String :=
  l.map (fun e => minifyByShorteningFileNames e 5)

/-- Stage 3: every element further shortened with `levels=4`. -/
def shorten4List (l : List String) : List String :=
  l.map (fun e => minifyByShorteningFileNames e 4)

/-- Stage 4: nested-exception chains collapsed in every element. -/
def nestedList (l : List String) : List String :=
  l.map minifyByRemovingNestedExceptions

/-- The `while len(errors_string) > self._capacity` loop of
`_get_minified_errors`.  The fuel bounds the number of iterations, which
the callers make generous; exhaustion is reported as `.error "fuel"`
(the loop of the source would simply still be running). -/
def removeLinesLoop : Nat → Int → String → Except String String
  | 0, _, _ => .error "fuel"
  | n + 1, cap, s =>
    if (s.length : Int) ≤ cap then .ok s
    else
      match minifyByRemovingLines s with
      | .error e => .error e
      | .ok s2 => removeLinesLoop n cap s2

/-- `ErrorMinifier._get_minified_errors`, returning both the errors list
as left by the in-place mutations and the minified string.  Strategies
are tried in order, each only when the previous join still exceeds the
capacity. -/
def getMinifiedErrors (errorsList : List String) (capacity : Option Int) :
    Except String (List String × String) :=
  match capacity with
  | none => .ok (errorsList, joinErrors errorsList)
  | some cap =>
    if errorsList.isEmpty then .ok (errorsList, "")
    else if ((joinErrors errorsList).length : Int) ≤ cap then
      .ok (errorsList, joinErrors errorsList)
    else if ((joinErrors (shorten5List errorsList)).length : Int) ≤ cap then
      .ok (shorten5List errorsList, joinErrors (shorten5List errorsList))
    else if ((joinErrors (shorten4List (shorten5List errorsList))).length : Int) ≤ cap then
      .ok (shorten4List (shorten5List errorsList),
        joinErrors (shorten4List (shorten5List errorsList)))
    else if ((joinErrors (nestedList (shorten4List (shorten5List errorsList)))).length : Int) ≤ cap then
      .ok (nestedList (shorten4List (shorten5List errorsList)),
        joinErrors (nestedList (shorten4List (shorten5List errorsList))))
    else
      match removeLinesLoop
          (3 * (joinErrors (nestedList (shorten4List (shorten5List errorsList)))).length + 8)
          cap (joinErrors (nestedList (shorten4List (shorten5List errorsList)))) with
      | .error e => .error e
      | .ok s => .ok (nestedList (shorten4List (shorten5List errorsList)), s)

/-- The observable state of an `ErrorMinifier` object: the (mutable,
aliased) errors list, the capacity, and the cached minified string. -/
structure ErrorMinifier where
  errorsList : List String
  capacity : Option Int
  minifiedError : String
deriving DecidableEq

/-- `ErrorMinifier(errors_list)`. -/
def ErrorMinifier.init (errorsList : List String) : ErrorMinifier :=
  ⟨errorsList, none, joinErrors errorsList⟩

/-- `ErrorMinifier.set_capacity(capacity)`: store the capacity and
recompute the minified error, mutating the stored errors list through
`_get_minified_errors`. -/
def ErrorMinifier.setCapacity (st : ErrorMinifier) (cap : Int) : Except String ErrorMinifier :=
  match getMinifiedErrors st.errorsList (some cap) with
  | .error e => .error e
  | .ok (l, s) => .ok ⟨l, some cap, s⟩

/-! ## Issue URL construction (`_build_issue_info_tup`) -/

/-- `_MAX_URL_LENGTH` of the source. -/
def maxUrlLength : Nat := 2035

/-- Python `s[:n]` (keep the first `n` characters). -/
def strTake (s : String) (n : Nat) : String :=
  String.mk (s.data.take n)

/-- The `while len(formatted_issues_url) > _MAX_URL_LENGTH and tries < 25`
loop of `_build_issue_info_tup`.  The oracle stands for
`_get_minified_issue_url(command_log_file, format_dict.copy(), is_ext,
ext_name, capacity)`, which renders templates, url-encodes and calls
`ErrorMinifier.set_capacity`; it is passed the capacity and returns the
formatted url and minified body, or the exception `set_capacity` can
raise.  The theorem about this code quantifies over every oracle, so no
behavior of the real subroutine is excluded.  The fuel counts the `tries`
counter down from 25. -/
def buildLoopUrl (oracle : Int → Except String (String × String)) :
    Nat → Int → String → Except String String
  | 0, _, url => .ok url
  | n + 1, cap, url =>
    if (maxUrlLength : Int) < (url.length : Int) then
      match oracle cap with
      | .error e => .error e
      | .ok (url2, _) =>
        buildLoopUrl oracle n (cap - ((url2.length : Int) - (maxUrlLength : Int))) url2
    else .ok url

/-- The url-producing skeleton of `_build_issue_info_tup`: a first
minification at capacity `_MAX_URL_LENGTH`, the retry loop with the
capacity reduced by the url-escaping overhead, and the final fallback
that truncates the url to `_MAX_URL_LENGTH` characters (with a warning)
when it is still too long. -/
def buildIssueUrl (oracle : Int → Except String (String × String)) : Except String String :=
  match oracle (maxUrlLength : Int) with
  | .error e => .error e
  | .ok (url, _) =>
    match buildLoopUrl oracle 25
        ((maxUrlLength : Int) - ((url.length : Int) - (maxUrlLength : Int))) url with
    | .error e => .error e
    | .ok url2 =>
      .ok (if (maxUrlLength : Int) < (url2.length : Int) then strTake url2 maxUrlLength else url2)

end AzFeedback

/-! ## The autogenerated IoT model class -/

namespace AzIot

/-- `RepositoryUpsertRequestProperties(id=None, name=None)`: a flat
attribute record storing the two optional string fields exactly as
passed, with `None` defaults and no validation. -/
structure RepositoryUpsertRequestProperties where
  id : Option String := none
  name : Option String := none
deriving DecidableEq

end AzIot

namespace AzFeedback

/-! ## Helper lemmas -/

/-- Any string the line-removal loop returns fits the capacity, because
the loop only exits through its guard. -/
theorem removeLinesLoop_le {n : Nat} {cap : Int} {s r : String}
    (h : removeLinesLoop n cap s = .ok r) : (r.length : Int) ≤ cap := by
  induction n generalizing s with
  | zero => simp [removeLinesLoop] at h
  | succ n ih =>
    rw [removeLinesLoop] at h
    by_cases hle : (s.length : Int) ≤ cap
    · rw [if_pos hle] at h
      cases h
      exact hle
    · rw [if_neg hle] at h
      rcases hm : minifyByRemovingLines s with e | s2 <;> rw [hm] at h
      · cases h
      · exact ih h

/-- Appending a suffix makes `strEndsWith` hold for that suffix. -/
theorem strEndsWith_concat (s t : String) : strEndsWith (strConcat s t) t = true := by
  have hdata : (strConcat s t).data = s.data ++ t.data := rfl
  simp only [strEndsWith, hdata, decide_eq_true_eq]
  constructor
  · simp
  · rw [List.length_append, Nat.add_sub_cancel]
    exact List.drop_left s.data t.data

/-- The newline fix-up always yields a message ending in a newline. -/
theorem withNewline_endsWith (s : String) : strEndsWith (withNewline s) "\n" = true := by
  unfold withNewline
  by_cases h : strEndsWith s "\n" = true
  · simp [h]
  · rw [if_neg h]
    exact strEndsWith_concat s "\n"

/-- The accumulator-passing loop of the source computes the same records
as the claim-side direct recursion, prefixed by the accumulator. -/
theorem getLogRecordListAux_eq (pId : Int) (lines : List String) :
    ∀ (prev : Option LogRecord) (acc : List LogRecord),
      getLogRecordListAux pId lines prev acc =
        (recordsOfLinesAux pId lines prev).map (acc ++ ·) := by
  induction lines with
  | nil =>
    intro prev acc
    cases prev <;> simp [getLogRecordListAux, recordsOfLinesAux, Except.map]
  | cons line rest ih =>
    intro prev acc
    simp only [getLogRecordListAux, recordsOfLinesAux]
    rcases hg : getInfoFromLogLine line pId with e | o
    · simp [hg, Except.map]
    · cases o with
      | some r =>
        cases prev with
        | none => simp [hg, ih, Option.toList]
        | some p =>
          simp only [hg, Option.toList, ih]
          rcases hr : recordsOfLinesAux pId rest (some r) with e | l <;>
            simp [hr, Except.map]
      | none =>
        cases prev with
        | some p => simpa [hg] using ih (some (appendToMsg p line)) acc
        | none => simpa [hg] using ih none acc

/-- Record count produced by the claim-side recursion: one record per
recognized line, plus the record currently being assembled. -/
theorem recordsOfLinesAux_length (pId : Int) (lines : List String) :
    ∀ (cur : Option LogRecord) (l : List LogRecord),
      recordsOfLinesAux pId lines cur = .ok l →
      l.length = lines.countP (fun ln => isNewRecordLine ln pId) + cur.toList.length := by
  induction lines with
  | nil =>
    intro cur l h
    cases cur with
    | none =>
      simp only [recordsOfLinesAux] at h
      injection h with h
      subst h
      simp
    | some p =>
      simp only [recordsOfLinesAux] at h
      injection h with h
      subst h
      simp [Option.toList]
  | cons line rest ih =>
    intro cur l h
    simp only [recordsOfLinesAux] at h
    rcases hg : getInfoFromLogLine line pId with e | o <;> simp only [hg] at h
    · cases h
    · have hcount : (line :: rest).countP (fun ln => isNewRecordLine ln pId) =
          rest.countP (fun ln => isNewRecordLine ln pId) +
            (if isNewRecordLine line pId then 1 else 0) := by
        simp [List.countP_cons]
      cases o with
      | some r =>
        have hnew : isNewRecordLine line pId = true := by
          simp [isNewRecordLine, hg]
        cases cur with
        | none =>
          have := ih (some r) l h
          simp only [hcount, hnew, Option.toList] at this ⊢
          simp at this ⊢
          omega
        | some p =>
          rcases hr : recordsOfLinesAux pId rest (some r) with e | l2 <;>
            simp only [hr, Except.map] at h
          · cases h
          · injection h with h
            subst h
            have := ih (some r) l2 hr
            simp only [hcount, hnew, Option.toList] at this ⊢
            simp at this ⊢
            omega
      | none =>
        have hnew : isNewRecordLine line pId = false := by
          simp [isNewRecordLine, hg]
        cases cur with
        | some p =>
          have := ih (some (appendToMsg p line)) l h
          simp only [hcount, hnew, Option.toList] at this ⊢
          simp at this ⊢
          omega
        | none =>
          have := ih none l h
          simp only [hcount, hnew, Option.toList] at this ⊢
          simp at this ⊢
          omega

/-- Full case analysis of a successful `_get_minified_errors` run with a
set capacity: exactly one strategy stage produced the result, each stage
was entered only because every earlier attempt still exceeded the
capacity, and the returned list records the in-place mutations performed
so far. -/
theorem getMinifiedErrors_cases (errors : List String) (cap : Int) (l : List String) (s : String)
    (h : getMinifiedErrors errors (some cap) = .ok (l, s)) :
    (errors = [] ∧ l = errors ∧ s = "") ∨
    (errors ≠ [] ∧ ((joinErrors errors).length : Int) ≤ cap ∧
      l = errors ∧ s = joinErrors errors) ∨
    (errors ≠ [] ∧ cap < ((joinErrors errors).length : Int) ∧
      ((joinErrors (shorten5List errors)).length : Int) ≤ cap ∧
      l = shorten5List errors ∧ s = joinErrors (shorten5List errors)) ∨
    (errors ≠ [] ∧ cap < ((joinErrors errors).length : Int) ∧
      cap < ((joinErrors (shorten5List errors)).length : Int) ∧
      ((joinErrors (shorten4List (shorten5List errors))).length : Int) ≤ cap ∧
      l = shorten4List (shorten5List errors) ∧
      s = joinErrors (shorten4List (shorten5List errors))) ∨
    (errors ≠ [] ∧ cap < ((joinErrors errors).length : Int) ∧
      cap < ((joinErrors (shorten5List errors)).length : Int) ∧
      cap < ((joinErrors (shorten4List (shorten5List errors))).length : Int) ∧
      ((joinErrors (nestedList (shorten4List (shorten5List errors)))).length : Int) ≤ cap ∧
      l = nestedList (shorten4List (shorten5List errors)) ∧
      s = joinErrors (nestedList (shorten4List (shorten5List errors)))) ∨
    (errors ≠ [] ∧ cap < ((joinErrors errors).length : Int) ∧
      cap < ((joinErrors (shorten5List errors)).length : Int) ∧
      cap < ((joinErrors (shorten4List (shorten5List errors))).length : Int) ∧
      cap < ((joinErrors (nestedList (shorten4List (shorten5List errors)))).length : Int) ∧
      l = nestedList (shorten4List (shorten5List errors)) ∧
      removeLinesLoop
        (3 * (joinErrors (nestedList (shorten4List (shorten5List errors)))).length + 8)
        cap (joinErrors (nestedList (shorten4List (shorten5List errors)))) = .ok s ∧
      (s.length : Int) ≤ cap) := by
  simp only [getMinifiedErrors] at h
  by_cases hemp : errors.isEmpty
  · rw [if_pos hemp] at h
    injection h with h
    injection h with h1 h2
    refine Or.inl ⟨List.isEmpty_iff.mp hemp, h1.symm, h2.symm⟩
  · rw [if_neg hemp] at h
    replace hemp : errors ≠ [] := by
      simpa [List.isEmpty_iff] using hemp
    by_cases h1 : ((joinErrors errors).length : Int) ≤ cap
    · rw [if_pos h1] at h
      injection h with h
      injection h with ha hb
      exact Or.inr (Or.inl ⟨hemp, h1, ha.symm, hb.symm⟩)
    · rw [if_neg h1] at h
      replace h1 := Int.lt_of_not_ge h1
      by_cases h2 : ((joinErrors (shorten5List errors)).length : Int) ≤ cap
      · rw [if_pos h2] at h
        injection h with h
        injection h with ha hb
        exact Or.inr (Or.inr (Or.inl ⟨hemp, h1, h2, ha.symm, hb.symm⟩))
      · rw [if_neg h2] at h
        replace h2 := Int.lt_of_not_ge h2
        by_cases h3 : ((joinErrors (shorten4List (shorten5List errors))).length : Int) ≤ cap
        · rw [if_pos h3] at h
          injection h with h
          injection h with ha hb
          exact Or.inr (Or.inr (Or.inr (Or.inl ⟨hemp, h1, h2, h3, ha.symm, hb.symm⟩)))
        · rw [if_neg h3] at h
          replace h3 := Int.lt_of_not_ge h3
          by_cases h4 : ((joinErrors (nestedList (shorten4List (shorten5List errors)))).length : Int) ≤ cap
          · rw [if_pos h4] at h
            injection h with h
            injection h with ha hb
            exact Or.inr (Or.inr (Or.inr (Or.inr (Or.inl
              ⟨hemp, h1, h2, h3, h4, ha.symm, hb.symm⟩))))
          · rw [if_neg h4] at h
            replace h4 := Int.lt_of_not_ge h4
            rcases hr : removeLinesLoop
                (3 * (joinErrors (nestedList (shorten4List (shorten5List errors)))).length + 8)
                cap (joinErrors (nestedList (shorten4List (shorten5List errors)))) with e | s2 <;>
              simp only [hr] at h
            · cases h
            · injection h with h
              injection h with ha hb
              subst hb
              exact Or.inr (Or.inr (Or.inr (Or.inr (Or.inr
                ⟨hemp, h1, h2, h3, h4, ha.symm, rfl, removeLinesLoop_le hr⟩))))

/-- Specification of a successful `set_capacity` call, combining
`getMinifiedErrors_cases` with the state update: the new capacity is
stored, and the stored errors list and minified string are those of the
stage that produced the result. -/
theorem setCapacity_spec (errors : List String) (c0 : Option Int) (m0 : String) (cap : Int)
    (st2 : ErrorMinifier)
    (h : ErrorMinifier.setCapacity ⟨errors, c0, m0⟩ cap = .ok st2) :
    st2.capacity = some cap ∧
      getMinifiedErrors errors (some cap) = .ok (st2.errorsList, st2.minifiedError) := by
  simp only [ErrorMinifier.setCapacity] at h
  rcases hg : getMinifiedErrors errors (some cap) with e | p <;> simp only [hg] at h
  · cases h
  · rcases p with ⟨l, s⟩
    injection h with h
    subst h
    exact ⟨rfl, rfl⟩

/-! ## Claim theorems -/

/-- C3 (amended): a line yields a structured record if and only if it
starts with the command-log marker, the remainder splits into exactly
five pipe-delimited fields, and the leading field parsed as an integer
equals the expected process id; otherwise the call returns `None` —
EXCEPT that a line with the marker and five fields whose leading field
is not a valid integer raises a `ValueError` instead of returning
`None`. -/
theorem log_line_recognition (line : String) (pId : Int) :
    (isNewRecordLine line pId = true ↔ recognizesNewRecord line pId) ∧
    (¬ recognizesNewRecord line pId →
      getInfoFromLogLine line pId = .ok none ∨
      (getInfoFromLogLine line pId = .error "ValueError" ∧
        strStartsWith line cmdLogLineBegin = true ∧
        (splitCharMax '|' 4 (strDrop line cmdLogLineBegin.length).data).length = 5 ∧
        pyInt (String.mk (stripL
          ((splitCharMax '|' 4 (strDrop line cmdLogLineBegin.length).data).getD 0 []))) = none)) := by
  unfold isNewRecordLine getInfoFromLogLine recognizesNewRecord
  by_cases hs : strStartsWith line cmdLogLineBegin = true
  · simp only [hs, if_true]
    by_cases h5 : (splitCharMax '|' 4 (strDrop line cmdLogLineBegin.length).data).length = 5
    · simp only [h5, if_true]
      rcases hp : pyInt (String.mk (stripL
          ((splitCharMax '|' 4 (strDrop line cmdLogLineBegin.length).data).getD 0 []))) with _ | n
      · simp [hp, hs, h5]
      · by_cases hn : n = pId
        · subst hn
          simp [hp, hs, h5]
        · simp [hp, hs, h5, hn, Ne.symm hn]
    · simp [h5]
  · simp [hs]

/-- C3 counterexample for the claim as stated: a line with the marker,
five pipe-delimited fields and a non-integer leading field is not
recognized, yet the function raises a `ValueError` rather than return
`None`. -/
theorem log_line_value_error_cex :
    getInfoFromLogLine "CMD-LOG-LINE-BEGIN x | t | INFO | cli | boom" 7 = .error "ValueError" ∧
    ¬ recognizesNewRecord "CMD-LOG-LINE-BEGIN x | t | INFO | cli | boom" 7 :=
  ⟨rfl, by decide⟩

/-- C3 witness: a line without the marker is not recognized and the
amended theorem then yields the `None` result. -/
theorem log_line_recognition_witness :
    ¬ recognizesNewRecord "plain text" 7 ∧
    (getInfoFromLogLine "plain text" 7 = .ok none ∨
      (getInfoFromLogLine "plain text" 7 = .error "ValueError" ∧
        strStartsWith "plain text" cmdLogLineBegin = true ∧
        (splitCharMax '|' 4 (strDrop "plain text" cmdLogLineBegin.length).data).length = 5 ∧
        pyInt (String.mk (stripL
          ((splitCharMax '|' 4 (strDrop "plain text" cmdLogLineBegin.length).data).getD 0 []))) = none)) :=
  have h0 : ¬ recognizesNewRecord "plain text" 7 := by decide
  ⟨h0, (log_line_recognition "plain text" 7).2 h0⟩

/-- C9: every record returned by `_get_info_from_log_line` has a message
ending in a newline, because the fields are stripped and the final
branch appends a newline whenever the stripped message lacks one. -/
theorem log_msg_ends_with_newline (line : String) (pId : Int) (r : LogRecord)
    (h : getInfoFromLogLine line pId = .ok (some r)) :
    strEndsWith r.logMsg "\n" = true := by
  unfold getInfoFromLogLine at h
  by_cases hs : strStartsWith line cmdLogLineBegin = true
  · rw [if_pos hs] at h
    by_cases h5 : (splitCharMax '|' 4 (strDrop line cmdLogLineBegin.length).data).length = 5
    · rw [if_pos h5] at h
      rcases hp : pyInt (String.mk (stripL
          ((splitCharMax '|' 4 (strDrop line cmdLogLineBegin.length).data).getD 0 []))) with _ | n <;>
        simp only [hp] at h
      · cases h
      · by_cases hn : n = pId
        · rw [if_pos hn] at h
          injection h with h
          injection h with h
          subst h
          exact withNewline_endsWith _
        · rw [if_neg hn] at h
          cases h
    · rw [if_neg h5] at h
      cases h
  · rw [if_neg hs] at h
    cases h

/-- C9 witness: a concrete recognized line whose message field lacks a
trailing newline gets one appended. -/
theorem log_msg_ends_with_newline_witness :
    getInfoFromLogLine "CMD-LOG-LINE-BEGIN 3 | t | DEBUG | az | done" 3 =
      .ok (some ⟨3, "t", "DEBUG", "az", "done\n"⟩) ∧
    strEndsWith (LogRecord.mk 3 "t" "DEBUG" "az" "done\n").logMsg "\n" = true :=
  have h0 : getInfoFromLogLine "CMD-LOG-LINE-BEGIN 3 | t | DEBUG | az | done" 3 =
      .ok (some ⟨3, "t", "DEBUG", "az", "done\n"⟩) := rfl
  ⟨h0, log_msg_ends_with_newline _ 3 _ h0⟩

/-- C4: the record-list loop of `_get_log_record_list` equals the direct
regrouping described by the claim — every recognized line opens a
record, every following unrecognized line is appended verbatim to the
message of the immediately preceding record with the other fields
untouched, records are returned in file order — and a successful run
returns exactly one record per recognized line. -/
theorem log_record_grouping (lines : List String) (pId : Int) :
    getLogRecordList lines pId = recordsOfLines lines pId ∧
    ∀ l, getLogRecordList lines pId = .ok l →
      l.length = lines.countP (fun ln => isNewRecordLine ln pId) := by
  have heq : getLogRecordList lines pId = recordsOfLines lines pId := by
    unfold getLogRecordList recordsOfLines
    rw [getLogRecordListAux_eq]
    rcases hr : recordsOfLinesAux pId lines none with e | l <;> simp [Except.map]
  refine ⟨heq, ?_⟩
  intro l hl
  rw [heq] at hl
  simpa using recordsOfLinesAux_length pId lines none l hl

/-- C4 witness: one recognized line followed by a continuation line
yields a single record carrying the continuation verbatim. -/
theorem log_record_grouping_witness :
    getLogRecordList ["CMD-LOG-LINE-BEGIN 9 | t | WARNING | az | oops", "tail\n"] 9 =
      .ok [⟨9, "t", "WARNING", "az", "oops\ntail\n"⟩] ∧
    ([(⟨9, "t", "WARNING", "az", "oops\ntail\n"⟩ : LogRecord)]).length =
      (["CMD-LOG-LINE-BEGIN 9 | t | WARNING | az | oops", "tail\n"]).countP
        (fun ln => isNewRecordLine ln 9) :=
  have h0 : getLogRecordList ["CMD-LOG-LINE-BEGIN 9 | t | WARNING | az | oops", "tail\n"] 9 =
      .ok [⟨9, "t", "WARNING", "az", "oops\ntail\n"⟩] := rfl
  ⟨h0, (log_record_grouping ["CMD-LOG-LINE-BEGIN 9 | t | WARNING | az | oops", "tail\n"] 9).2 _ h0⟩

/-- C1 (amended): `set_capacity` tries the strategies in order — the
join as is, paths shortened to 5 segments, to 4 segments, nested
exceptions collapsed, lines removed from the middle — each stage only
because every earlier attempt still exceeded the capacity, and whenever
the call returns, the resulting string fits the capacity, except for an
empty error list whose result is the empty string.  (On some inputs
where fitting is achievable the removal loop instead raises an
`IndexError`; see the counterexample.) -/
theorem setCapacity_fits_when_ok (errors : List String) (c0 : Option Int) (m0 : String)
    (cap : Int) (st2 : ErrorMinifier)
    (h : ErrorMinifier.setCapacity ⟨errors, c0, m0⟩ cap = .ok st2) :
    st2.capacity = some cap ∧
    ((errors = [] ∧ st2.minifiedError = "") ∨
     (st2.minifiedError = joinErrors errors ∧ (st2.minifiedError.length : Int) ≤ cap) ∨
     (cap < ((joinErrors errors).length : Int) ∧
       st2.minifiedError = joinErrors (shorten5List errors) ∧
       (st2.minifiedError.length : Int) ≤ cap) ∨
     (cap < ((joinErrors errors).length : Int) ∧
       cap < ((joinErrors (shorten5List errors)).length : Int) ∧
       st2.minifiedError = joinErrors (shorten4List (shorten5List errors)) ∧
       (st2.minifiedError.length : Int) ≤ cap) ∨
     (cap < ((joinErrors errors).length : Int) ∧
       cap < ((joinErrors (shorten5List errors)).length : Int) ∧
       cap < ((joinErrors (shorten4List (shorten5List errors))).length : Int) ∧
       st2.minifiedError = joinErrors (nestedList (shorten4List (shorten5List errors))) ∧
       (st2.minifiedError.length : Int) ≤ cap) ∨
     (cap < ((joinErrors errors).length : Int) ∧
       cap < ((joinErrors (shorten5List errors)).length : Int) ∧
       cap < ((joinErrors (shorten4List (shorten5List errors))).length : Int) ∧
       cap < ((joinErrors (nestedList (shorten4List (shorten5List errors)))).length : Int) ∧
       removeLinesLoop
         (3 * (joinErrors (nestedList (shorten4List (shorten5List errors)))).length + 8)
         cap (joinErrors (nestedList (shorten4List (shorten5List errors)))) =
         .ok st2.minifiedError ∧
       (st2.minifiedError.length : Int) ≤ cap)) := by
  obtain ⟨hc, hg⟩ := setCapacity_spec errors c0 m0 cap st2 h
  refine ⟨hc, ?_⟩
  rcases getMinifiedErrors_cases errors cap _ _ hg with
    ⟨he, _, hs⟩ | ⟨_, hle, _, hs⟩ | ⟨_, h1, hle, _, hs⟩ | ⟨_, h1, h2, hle, _, hs⟩ |
    ⟨_, h1, h2, h3, hle, _, hs⟩ | ⟨_, h1, h2, h3, h4, _, hloop, hle⟩
  · exact Or.inl ⟨he, hs⟩
  · exact Or.inr (Or.inl ⟨hs, by rw [hs]; exact hle⟩)
  · exact Or.inr (Or.inr (Or.inl ⟨h1, hs, by rw [hs]; exact hle⟩))
  · exact Or.inr (Or.inr (Or.inr (Or.inl ⟨h1, h2, hs, by rw [hs]; exact hle⟩)))
  · exact Or.inr (Or.inr (Or.inr (Or.inr (Or.inl ⟨h1, h2, h3, hs, by rw [hs]; exact hle⟩))))
  · exact Or.inr (Or.inr (Or.inr (Or.inr (Or.inr ⟨h1, h2, h3, h4, hloop, hle⟩))))

/-- C1 counterexample: for the single error `x` and capacity 0, removing
every line (the empty join, shown to fit the capacity) would achieve the
budget, yet `set_capacity` raises an `IndexError` instead of returning a
fitting string. -/
theorem setCapacity_index_error_cex :
    ErrorMinifier.setCapacity (ErrorMinifier.init ["x"]) 0 = .error "IndexError" ∧
    ((joinErrors []).length : Int) ≤ 0 :=
  ⟨rfl, by decide⟩

/-- C1 witness: a list that already fits the capacity is returned as the
stage-one join. -/
theorem setCapacity_fits_when_ok_witness :
    ErrorMinifier.setCapacity ⟨["ab"], none, "ab"⟩ 10 = .ok ⟨["ab"], some 10, "ab"⟩ ∧
    (ErrorMinifier.mk ["ab"] (some 10) "ab").capacity = some 10 :=
  have h0 : ErrorMinifier.setCapacity ⟨["ab"], none, "ab"⟩ 10 =
      .ok ⟨["ab"], some 10, "ab"⟩ := rfl
  ⟨h0, (setCapacity_fits_when_ok ["ab"] none "ab" 10 ⟨["ab"], some 10, "ab"⟩ h0).1⟩

/-- C2 (amended): the joined length can grow from one strategy attempt
to the next — collapsing nested exceptions can insert more text than it
removes — but whenever `set_capacity` returns, the final minified output
never exceeds the length of the original newline join. -/
theorem minified_length_le_original (errors : List String) (c0 : Option Int) (m0 : String)
    (cap : Int) (st2 : ErrorMinifier)
    (h : ErrorMinifier.setCapacity ⟨errors, c0, m0⟩ cap = .ok st2) :
    st2.minifiedError.length ≤ (joinErrors errors).length := by
  obtain ⟨_, hg⟩ := setCapacity_spec errors c0 m0 cap st2 h
  rcases getMinifiedErrors_cases errors cap _ _ hg with
    ⟨_, _, hs⟩ | ⟨_, _, _, hs⟩ | ⟨_, h1, hle, _, hs⟩ | ⟨_, h1, _, hle, _, hs⟩ |
    ⟨_, h1, _, _, hle, _, hs⟩ | ⟨_, h1, _, _, _, _, _, hle⟩
  · simp [hs]
  · simp [hs]
  · rw [hs]
    omega
  · rw [hs]
    omega
  · rw [hs]
    omega
  · omega

/-- C2 counterexample: for the single error consisting of the
nested-exception marker line followed by one more line, the first three
strategy attempts leave the join unchanged (and longer than capacity 0),
while the fourth attempt — collapsing nested exceptions — makes the join
strictly LONGER, so the attempt lengths are not non-increasing. -/
theorem nested_collapse_grows_cex :
    joinErrors (shorten4List (shorten5List ["During handling of the above exception\nb"])) =
      joinErrors ["During handling of the above exception\nb"] ∧
    (joinErrors (shorten4List (shorten5List ["During handling of the above exception\nb"]))).length <
      (joinErrors (nestedList (shorten4List (shorten5List
        ["During handling of the above exception\nb"])))).length ∧
    0 < ((joinErrors (shorten4List (shorten5List
      ["During handling of the above exception\nb"]))).length : Int) :=
  ⟨rfl, by decide, by decide⟩

/-- C2 witness: a fitting error string is returned unchanged, so its
length does not exceed the original join. -/
theorem minified_length_le_original_witness :
    ErrorMinifier.setCapacity ⟨["hello"], none, "hello"⟩ 99 = .ok ⟨["hello"], some 99, "hello"⟩ ∧
    (ErrorMinifier.mk ["hello"] (some 99) "hello").minifiedError.length ≤
      (joinErrors ["hello"]).length :=
  have h0 : ErrorMinifier.setCapacity ⟨["hello"], none, "hello"⟩ 99 =
      .ok ⟨["hello"], some 99, "hello"⟩ := rfl
  ⟨h0, minified_length_le_original ["hello"] none "hello" 99 ⟨["hello"], some 99, "hello"⟩ h0⟩

/-- C7: the claim says minification never raises; in fact the middle
index probed by the line-removal strategy, `len(lines) // 2 + 1`, is out
of bounds whenever the current string has at most two lines, and for the
two-line error list below with capacity 0 the `IndexError` escapes from
`set_capacity`.  The second and third conjuncts exhibit the out-of-range
index: two lines, probe index 2. -/
theorem remove_lines_index_out_of_bounds :
    ErrorMinifier.setCapacity ⟨["a", "b"], none, "a\nb"⟩ 0 = .error "IndexError" ∧
    (splitlinesL (replaceSub "...\n".data [] "a\nb".data)).length = 2 ∧
    ¬ ((splitlinesL (replaceSub "...\n".data [] "a\nb".data)).length / 2 + 1 <
      (splitlinesL (replaceSub "...\n".data [] "a\nb".data)).length) :=
  ⟨rfl, by decide, by decide⟩

/-- C10: `set_capacity` stores the capacity and — whenever the original
join exceeds it and the list is non-empty — overwrites the stored errors
list with the progressively shortened elements (5-segment paths, then
4-segment paths, then collapsed nested exceptions), so the original
error strings are not preserved; and any further `set_capacity` call is
fully determined by the stored, already-shortened list. -/
theorem setCapacity_mutates_errors_list (errors : List String) (c0 : Option Int) (m0 : String)
    (cap : Int) (st2 : ErrorMinifier)
    (h : ErrorMinifier.setCapacity ⟨errors, c0, m0⟩ cap = .ok st2) :
    st2.capacity = some cap ∧
    ((((joinErrors errors).length : Int) ≤ cap ∨ errors = []) ∧ st2.errorsList = errors ∨
      (cap < ((joinErrors errors).length : Int) ∧ errors ≠ [] ∧
        (st2.errorsList = shorten5List errors ∨
         st2.errorsList = shorten4List (shorten5List errors) ∨
         st2.errorsList = nestedList (shorten4List (shorten5List errors))))) ∧
    (∀ cap2 : Int, ErrorMinifier.setCapacity st2 cap2 =
      ErrorMinifier.setCapacity ⟨st2.errorsList, none, joinErrors st2.errorsList⟩ cap2) := by
  obtain ⟨hc, hg⟩ := setCapacity_spec errors c0 m0 cap st2 h
  refine ⟨hc, ?_, fun cap2 => rfl⟩
  rcases getMinifiedErrors_cases errors cap _ _ hg with
    ⟨he, hl, _⟩ | ⟨_, hle, hl, _⟩ | ⟨hne, h1, _, hl, _⟩ | ⟨hne, h1, _, _, hl, _⟩ |
    ⟨hne, h1, _, _, _, hl, _⟩ | ⟨hne, h1, _, _, _, hl, _, _⟩
  · exact Or.inl ⟨Or.inr he, hl⟩
  · exact Or.inl ⟨Or.inl hle, hl⟩
  · exact Or.inr ⟨h1, hne, Or.inl hl⟩
  · exact Or.inr ⟨h1, hne, Or.inr (Or.inl hl)⟩
  · exact Or.inr ⟨h1, hne, Or.inr (Or.inr hl)⟩
  · exact Or.inr ⟨h1, hne, Or.inr (Or.inr hl)⟩

/-- C10 witness: a long traceback line is overwritten in the stored list
by its 5-segment shortening, and a further `set_capacity` call is
determined by the shortened list. -/
theorem setCapacity_mutates_errors_list_witness :
    ErrorMinifier.setCapacity ⟨["  File \"/u1/u2/u3/u4/u5/u6/mod.py\", line 3, in go"], none,
        "  File \"/u1/u2/u3/u4/u5/u6/mod.py\", line 3, in go"⟩ 40 =
      .ok ⟨["u3/u4/u5/u6/mod.py, ln 3, in go"], some 40, "u3/u4/u5/u6/mod.py, ln 3, in go"⟩ ∧
    ErrorMinifier.setCapacity
        ⟨["u3/u4/u5/u6/mod.py, ln 3, in go"], some 40, "u3/u4/u5/u6/mod.py, ln 3, in go"⟩ 0 =
      ErrorMinifier.setCapacity
        ⟨(ErrorMinifier.mk ["u3/u4/u5/u6/mod.py, ln 3, in go"] (some 40)
            "u3/u4/u5/u6/mod.py, ln 3, in go").errorsList, none,
          joinErrors (ErrorMinifier.mk ["u3/u4/u5/u6/mod.py, ln 3, in go"] (some 40)
            "u3/u4/u5/u6/mod.py, ln 3, in go").errorsList⟩ 0 :=
  have h0 : ErrorMinifier.setCapacity ⟨["  File \"/u1/u2/u3/u4/u5/u6/mod.py\", line 3, in go"],
      none, "  File \"/u1/u2/u3/u4/u5/u6/mod.py\", line 3, in go"⟩ 40 =
      .ok ⟨["u3/u4/u5/u6/mod.py, ln 3, in go"], some 40, "u3/u4/u5/u6/mod.py, ln 3, in go"⟩ := rfl
  ⟨h0, (setCapacity_mutates_errors_list _ none _ 40 _ h0).2.2 0⟩

/-- C5: the process-id field of a log file name is converted with `int`
in the `return` statement OUTSIDE the `try`/`except` of
`_get_command_metadata_from_file`, so while a wrong field count or a bad
date are caught and skipped (`.ok none`), a well-formed name with a
non-integer process id raises a `ValueError` that propagates out of
`_get_command_log_files` and fails the feedback command. -/
theorem metadata_pid_value_error :
    getCommandLogFiles ["2020-01-01.00-00-00.show.abc.log"] = .error "ValueError" ∧
    getCommandMetadataFromFile "2020-01-01.00-00-00.show.abc.log" = .error "ValueError" ∧
    getCommandMetadataFromFile "notaconvention.log" = .ok none ∧
    getCommandMetadataFromFile "2020-13-01.00-00-00.show.12.log" = .ok none :=
  ⟨rfl, rfl, rfl, rfl⟩

/-- C6: whatever the minifying subroutine does at each retry — at most
25 retries precede the fallback — any url `_build_issue_info_tup`
returns has been truncated to at most `_MAX_URL_LENGTH` characters. -/
theorem issue_url_length_le_max (oracle : Int → Except String (String × String)) (url : String)
    (h : buildIssueUrl oracle = .ok url) : url.length ≤ maxUrlLength := by
  unfold buildIssueUrl at h
  rcases h0 : oracle (maxUrlLength : Int) with e | p <;> simp only [h0] at h
  · cases h
  · rcases p with ⟨u0, b0⟩
    rcases h1 : buildLoopUrl oracle 25
        ((maxUrlLength : Int) - ((u0.length : Int) - (maxUrlLength : Int))) u0 with e | u2 <;>
      simp only [h1] at h
    · cases h
    · injection h with h
      subst h
      by_cases h2 : (maxUrlLength : Int) < (u2.length : Int)
      · rw [if_pos h2]
        have htake : (strTake u2 maxUrlLength).length = min maxUrlLength u2.length := by
          show (u2.data.take maxUrlLength).length = min maxUrlLength u2.length
          exact List.length_take maxUrlLength u2.data
        rw [htake]
        exact Nat.min_le_left _ _
      · rw [if_neg h2]
        exact_mod_cast Int.not_lt.mp h2

/-- C6 witness: a constant oracle returning a short url makes the
builder return it unchanged, within the bound. -/
theorem issue_url_length_le_max_witness :
    buildIssueUrl (fun _ => .ok ("https://github.example/x", "body")) =
      .ok "https://github.example/x" ∧
    ("https://github.example/x" : String).length ≤ maxUrlLength :=
  have h0 : buildIssueUrl (fun _ => .ok ("https://github.example/x", "body")) =
      .ok "https://github.example/x" := rfl
  ⟨h0, issue_url_length_le_max _ _ h0⟩

/-- C8: the autogenerated model stores the two optional string fields
exactly as passed, both default to `None`, and no further invariant or
validation constrains them — any pair of optional strings is a valid
instance. -/
theorem repository_upsert_fields (i n : Option String) :
    (AzIot.RepositoryUpsertRequestProperties.mk i n).id = i ∧
    (AzIot.RepositoryUpsertRequestProperties.mk i n).name = n ∧
    ({} : AzIot.RepositoryUpsertRequestProperties).id = none ∧
    ({} : AzIot.RepositoryUpsertRequestProperties).name = none :=
  ⟨rfl, rfl, rfl, rfl⟩

end AzFeedback
